import Mathlib

/-!
Shallow embedding of `src/channels/plugins/onboarding/helpers.ts`
(allowlist resolution helpers for the onboarding wizard), together with
theorems checking the natural-language specification against it.

JS conventions modelled here:
* `Array<string | number>` becomes `List RawEntry`; `String(v)` is `RawEntry.toStr`.
* a JS string is falsy exactly when it is empty, so `.filter(Boolean)` on
  strings is `.filter (· != "")`;
* `string | null | undefined` becomes `Option String` (with the empty string
  still representable, since JS distinguishes `""` from `null`);
* `[...new Set(xs)]` keeps the first occurrence of each value, modelled by
  `jsSetDedup`;
* a JS object used as a map becomes a function `String → Option _`; the
  spread `{ ...m, [k]: v }` becomes a pointwise update at `k`.
-/

namespace Clawdbot

/-- An element of a JS `Array<string | number>`. -/
inductive RawEntry where
  | str (s : String)
  | num (n : Int)
deriving DecidableEq, Repr

/-- JS `String(v)` on a `string | number` value (integers only, as in the repo). -/
def RawEntry.toStr : RawEntry → String
  | .str s => s
  | .num n => toString n

/-- JS `String.prototype.trim()`: strip whitespace from both ends, modelled on
the underlying character list (Lean's built-in `String.trim` is equivalent but
is defined through `Substring` primitives that the kernel cannot evaluate). -/
def jsTrim (s : String) : String :=
  ⟨((s.data.dropWhile Char.isWhitespace).reverse.dropWhile Char.isWhitespace).reverse⟩

/-- Auxiliary for `jsSetDedup`: `seen` is the set of values already emitted. -/
def jsSetDedupAux (seen : List String) : List String → List String
  | [] => []
  | x :: xs => if x ∈ seen then jsSetDedupAux seen xs else x :: jsSetDedupAux (x :: seen) xs

/-- JS `[...new Set(xs)]`: deduplicate keeping the first occurrence of each value. -/
def jsSetDedup (l : List String) : List String :=
  jsSetDedupAux [] l

/-- `mergeAllowFromEntries(current, additions)` from helpers.ts:
`[...(current ?? []), ...additions].map((v) => String(v).trim()).filter(Boolean)`
then `[...new Set(merged)]`. -/
def mergeAllowFromEntries (current : Option (List RawEntry)) (additions : List RawEntry) :
    List String :=
  let merged := ((current.getD [] ++ additions).map (fun v => jsTrim v.toStr)).filter
    (fun s => s != "")
  jsSetDedup merged

/-- `splitOnboardingEntries(raw)` from helpers.ts: split on any run of
newline/comma/semicolon, trim each segment, drop empties. Splitting at every
single separator character and filtering empty segments afterwards yields the
same segments as splitting on runs (`/[\n,;]+/g`), since segments between
adjacent separators are empty and are dropped by the filter. -/
def splitOnboardingEntries (raw : String) : List String :=
  (((raw.data.splitOnP (fun c => c = '\n' ∨ c = ',' ∨ c = ';')).map
      (fun cs => jsTrim ⟨cs⟩)).filter (fun s => s != ""))

/-- `addWildcardAllowFrom(allowFrom)` from helpers.ts. -/
def addWildcardAllowFrom (allowFrom : Option (List RawEntry)) : List String :=
  let next := ((allowFrom.getD []).map (fun v => jsTrim v.toStr)).filter (fun s => s != "")
  if "*" ∈ next then next else next ++ ["*"]

/-- `normalizeAllowFromEntries(entries, normalizeEntry?)` from helpers.ts.
`normalizeEntry` returns `string | null | undefined`; a non-string result is
replaced by `""` and filtered out. -/
def normalizeAllowFromEntries (entries : List RawEntry)
    (normalizeEntry : Option (String → Option String)) : List String :=
  let normalized := ((((entries.map (fun e => jsTrim e.toStr)).filter (fun s => s != "")).map
    (fun entry =>
      if entry = "*" then "*"
      else
        match normalizeEntry with
        | none => entry
        | some f =>
          match f entry with
          | some value => jsTrim value
          | none => "")).filter (fun s => s != ""))
  jsSetDedup normalized

/-- Modelled from the spec: `DEFAULT_ACCOUNT_ID` is imported from
`routing/session-key` (not under src/); it is the distinguished
"default account" sentinel, distinguished from all other account identifiers. -/
def DEFAULT_ACCOUNT_ID : String := "default"

/-- Modelled from the spec: `normalizeAccountId` is imported from
`routing/session-key` (not under src/); per the spec it trims and then applies a
channel-agnostic normalization, modelled here by an abstract `norm`. -/
def normalizeAccountId (norm : String → String) (s : String) : String :=
  norm (jsTrim s)

/-- `resolveOnboardingAccountId(params)` from helpers.ts:
`params.accountId?.trim() ? normalizeAccountId(params.accountId) : params.defaultAccountId`. -/
def resolveOnboardingAccountId (norm : String → String) (accountId : Option String)
    (defaultAccountId : String) : String :=
  match accountId with
  | some s => if jsTrim s != "" then normalizeAccountId norm s else defaultAccountId
  | none => defaultAccountId

/-- Result of `resolveAccountIdForConfigure`: the returned account id, plus
whether the prompting capability (`promptAccountId`) was invoked. -/
structure ConfigureResult where
  accountId : String
  prompted : Bool
deriving DecidableEq, Repr

/-- `resolveAccountIdForConfigure(params)` from helpers.ts. The prompting
capability is abstracted by the value `promptResult` it would resolve to;
the `prompted` flag records whether it was invoked. -/
def resolveAccountIdForConfigure (norm : String → String) (promptResult : String)
    (accountOverride : Option String) (shouldPromptAccountIds : Bool)
    (defaultAccountId : String) : ConfigureResult :=
  let override := accountOverride.map jsTrim
  let overrideTruthy := match override with
    | some s => s != ""
    | none => false
  let accountId := match override with
    | some s => if s != "" then normalizeAccountId norm s else defaultAccountId
    | none => defaultAccountId
  if shouldPromptAccountIds && !overrideTruthy then
    ⟨promptResult, true⟩
  else
    ⟨accountId, false⟩

/-- One per-account entry of a channel config:
`{ allowFrom?: string[], ...other fields }`. `extra` stands for the other fields. -/
structure AccountConfig where
  allowFrom : Option (List String)
  extra : List (String × String)
deriving DecidableEq, Repr

def emptyAccountConfig : AccountConfig := ⟨none, []⟩

/-- One channel entry of the config:
`{ allowFrom?, dmPolicy?, accounts?, ...other fields }`. The `accounts` map is a
JS object, modelled as a function; `extra` stands for the other fields. -/
structure ChannelConfig where
  allowFrom : Option (List String)
  dmPolicy : Option String
  accounts : String → Option AccountConfig
  extra : List (String × String)

def emptyChannelConfig : ChannelConfig := ⟨none, none, fun _ => none, []⟩

/-- `OpenClawConfig`: `{ channels?: { [channelName]: ChannelConfig }, ...other }`.
The `channels` object is modelled as a function; `extra` stands for the other
top-level fields. -/
structure OpenClawConfig where
  channels : String → Option ChannelConfig
  extra : List (String × String)

/-- `setAccountAllowFromForChannel(params)` from helpers.ts. The nested object
spreads become pointwise updates; `...cfg.channels?.[channel]` of an absent
channel spreads the empty object, i.e. `emptyChannelConfig`. -/
def setAccountAllowFromForChannel (cfg : OpenClawConfig) (channel : String)
    (accountId : String) (allowFrom : List String) : OpenClawConfig :=
  if accountId = DEFAULT_ACCOUNT_ID then
    { cfg with
      channels := fun c =>
        if c = channel then
          some { (cfg.channels channel).getD emptyChannelConfig with allowFrom := some allowFrom }
        else cfg.channels c }
  else
    let base := (cfg.channels channel).getD emptyChannelConfig
    { cfg with
      channels := fun c =>
        if c = channel then
          some { base with
            accounts := fun a =>
              if a = accountId then
                some { (base.accounts accountId).getD emptyAccountConfig with
                  allowFrom := some allowFrom }
              else base.accounts a }
        else cfg.channels c }

/-- `setChannelDmPolicyWithAllowFrom(params)` from helpers.ts:
`allowFrom` is computed only for the `"open"` policy, and
`...(allowFrom ? { allowFrom } : {})` overrides the field only in that case
(a JS array is always truthy). -/
def setChannelDmPolicyWithAllowFrom (cfg : OpenClawConfig) (channel : String)
    (dmPolicy : String) : OpenClawConfig :=
  let base := (cfg.channels channel).getD emptyChannelConfig
  let allowFrom : Option (List String) :=
    if dmPolicy = "open" then
      some (addWildcardAllowFrom (base.allowFrom.map (fun l => l.map RawEntry.str)))
    else none
  { cfg with
    channels := fun c =>
      if c = channel then
        some { base with
          dmPolicy := some dmPolicy
          allowFrom := match allowFrom with
            | some l => some l
            | none => base.allowFrom }
      else cfg.channels c }

/-- `AllowFromResolution` from helpers.ts:
`{ input: string; resolved: boolean; id?: string | null }`. -/
structure AllowFromResolution where
  input : String
  resolved : Bool
  id : Option String
deriving DecidableEq, Repr

/-- The code's unacceptability test `(res) => !res.resolved || !res.id`:
`!res.id` holds for `undefined`, `null` and the empty string. -/
def resolutionUnacceptable (res : AllowFromResolution) : Bool :=
  !res.resolved || res.id.getD "" == ""

/-- One round of user interaction for `promptResolvedAllowFrom`: the text the
prompter resolves with, and — used only in directory mode — the outcome of
`resolveEntries` for that round (`none` models a rejected promise,
`some results` a fulfilled one). -/
structure RoundInput where
  entry : String
  outcome : Option (List AllowFromResolution)
deriving DecidableEq, Repr

/-- Observable behaviour of a run of `promptResolvedAllowFrom` over a finite
script of rounds: the returned list (`none` when the script is exhausted before
a success exit), the notices shown via `prompter.note` in order, and the number
of `resolveEntries` invocations. -/
structure LoopRun where
  result : Option (List String)
  notices : List String
  resolveCalls : Nat
deriving DecidableEq, Repr

/-- `promptResolvedAllowFrom(params)` from helpers.ts, run over a finite script
of rounds. Directory mode is active when the token is truthy (present and
non-empty). Each loop iteration consumes one scripted round:
local mode parses via `parseId` and succeeds only when no candidate is dropped
by `.filter(Boolean)`; directory mode calls `resolveEntries` (a rejection is
caught and replaced by the generic notice) and succeeds only when no result is
unacceptable. -/
def promptResolvedAllowFrom (existing : List RawEntry) (token : Option String)
    (parseInputs : String → List String) (parseId : String → Option String)
    (invalidWithoutTokenNote : String) : List RoundInput → LoopRun
  | [] => ⟨none, [], 0⟩
  | round :: rest =>
    let parts := parseInputs round.entry
    if token.getD "" == "" then
      let ids := ((parts.map parseId).reduceOption).filter (fun s => s != "")
      if ids.length ≠ parts.length then
        let r := promptResolvedAllowFrom existing token parseInputs parseId
          invalidWithoutTokenNote rest
        ⟨r.result, invalidWithoutTokenNote :: r.notices, r.resolveCalls⟩
      else
        ⟨some (mergeAllowFromEntries (some existing) (ids.map RawEntry.str)), [], 0⟩
    else
      match round.outcome with
      | none =>
        let r := promptResolvedAllowFrom existing token parseInputs parseId
          invalidWithoutTokenNote rest
        ⟨r.result, "Failed to resolve usernames. Try again." :: r.notices, r.resolveCalls + 1⟩
      | some results =>
        let unresolved := results.filter resolutionUnacceptable
        if unresolved.length > 0 then
          let r := promptResolvedAllowFrom existing token parseInputs parseId
            invalidWithoutTokenNote rest
          ⟨r.result,
            ("Could not resolve: " ++
              String.intercalate ", " (unresolved.map (fun res => res.input))) :: r.notices,
            r.resolveCalls + 1⟩
        else
          ⟨some (mergeAllowFromEntries (some existing)
              ((results.map (fun res => res.id.getD "")).map RawEntry.str)),
            [], 1⟩

/-! ### Lemmas about `jsSetDedup` -/

theorem jsSetDedupAux_sublist (l : List String) :
    ∀ seen, (jsSetDedupAux seen l).Sublist l := by
  induction l with
  | nil => intro seen; simp [jsSetDedupAux]
  | cons x xs ih =>
    intro seen
    rw [jsSetDedupAux]
    by_cases hx : x ∈ seen
    · rw [if_pos hx]
      exact (ih seen).cons x
    · rw [if_neg hx]
      exact (ih (x :: seen)).cons₂ x

theorem mem_jsSetDedupAux {s : String} (l : List String) :
    ∀ seen, s ∈ jsSetDedupAux seen l ↔ (s ∈ l ∧ s ∉ seen) := by
  induction l with
  | nil => intro seen; simp [jsSetDedupAux]
  | cons x xs ih =>
    intro seen
    rw [jsSetDedupAux]
    by_cases hx : x ∈ seen
    · rw [if_pos hx, ih seen]
      simp only [List.mem_cons]
      constructor
      · rintro ⟨hs, hns⟩
        exact ⟨Or.inr hs, hns⟩
      · rintro ⟨rfl | hs, hns⟩
        · exact absurd hx hns
        · exact ⟨hs, hns⟩
    · rw [if_neg hx]
      simp only [List.mem_cons, ih (x :: seen), List.mem_cons]
      constructor
      · rintro (rfl | ⟨hs, hns⟩)
        · exact ⟨Or.inl rfl, hx⟩
        · exact ⟨Or.inr hs, fun hmem => hns (Or.inr hmem)⟩
      · rintro ⟨rfl | hs, hns⟩
        · exact Or.inl rfl
        · by_cases hsx : s = x
          · exact Or.inl hsx
          · exact Or.inr ⟨hs, fun hmem => hns (hmem.resolve_left hsx)⟩

theorem jsSetDedupAux_nodup (l : List String) :
    ∀ seen, (jsSetDedupAux seen l).Nodup := by
  induction l with
  | nil => intro seen; simp [jsSetDedupAux]
  | cons x xs ih =>
    intro seen
    rw [jsSetDedupAux]
    by_cases hx : x ∈ seen
    · rw [if_pos hx]
      exact ih seen
    · rw [if_neg hx]
      refine List.nodup_cons.2 ⟨fun hmem => ?_, ih (x :: seen)⟩
      exact ((mem_jsSetDedupAux xs (x :: seen)).1 hmem).2 (List.mem_cons_self x seen)

theorem jsSetDedupAux_nil_of_subset (b : List String) :
    ∀ seen, (∀ x ∈ b, x ∈ seen) → jsSetDedupAux seen b = [] := by
  induction b with
  | nil => intro seen _; rfl
  | cons y ys ih =>
    intro seen h
    rw [jsSetDedupAux, if_pos (h y (List.mem_cons_self y ys))]
    exact ih seen (fun x hx => h x (List.mem_cons_of_mem y hx))

theorem jsSetDedupAux_append_of_subset (a : List String) :
    ∀ (seen b : List String), (∀ x ∈ b, x ∈ a ∨ x ∈ seen) →
      jsSetDedupAux seen (a ++ b) = jsSetDedupAux seen a := by
  induction a with
  | nil =>
    intro seen b h
    rw [List.nil_append]
    exact jsSetDedupAux_nil_of_subset b seen (fun x hx => ((h x hx).resolve_left (by simp)))
  | cons x a' ih =>
    intro seen b h
    rw [List.cons_append, jsSetDedupAux, jsSetDedupAux]
    by_cases hx : x ∈ seen
    · rw [if_pos hx, if_pos hx]
      refine ih seen b (fun y hy => ?_)
      rcases h y hy with hya | hys
      · rcases List.mem_cons.1 hya with rfl | hya'
        · exact Or.inr hx
        · exact Or.inl hya'
      · exact Or.inr hys
    · rw [if_neg hx, if_neg hx]
      congr 1
      refine ih (x :: seen) b (fun y hy => ?_)
      rcases h y hy with hya | hys
      · rcases List.mem_cons.1 hya with rfl | hya'
        · exact Or.inr (List.mem_cons_self y seen)
        · exact Or.inl hya'
      · exact Or.inr (List.mem_cons_of_mem x hys)

theorem jsSetDedup_sublist (l : List String) : (jsSetDedup l).Sublist l :=
  jsSetDedupAux_sublist l []

theorem mem_jsSetDedup {s : String} {l : List String} : s ∈ jsSetDedup l ↔ s ∈ l := by
  rw [jsSetDedup, mem_jsSetDedupAux l []]
  simp

theorem jsSetDedup_nodup (l : List String) : (jsSetDedup l).Nodup :=
  jsSetDedupAux_nodup l []

theorem jsSetDedup_append_of_subset (a b : List String) (h : ∀ x ∈ b, x ∈ a) :
    jsSetDedup (a ++ b) = jsSetDedup a :=
  jsSetDedupAux_append_of_subset a [] b (fun x hx => Or.inl (h x hx))

/-! ### Claim theorems -/

/-- C9: `splitOnboardingEntries` splits its input at newline, comma and
semicolon characters (runs of separators only create empty segments, which are
dropped), trims each segment, and drops empty segments including those from
leading/trailing separators; it is a total function, the empty string yields
the empty list, and `splitOnboardingEntries " a, b \nc;  ;\n" = ["a","b","c"]`. -/
theorem C9_splitOnboardingEntries_spec :
    (∀ raw : String, ∀ s ∈ splitOnboardingEntries raw,
       s ≠ "" ∧ ∃ seg ∈ raw.data.splitOnP (fun c => c = '\n' ∨ c = ',' ∨ c = ';'),
         s = jsTrim ⟨seg⟩) ∧
    splitOnboardingEntries "" = [] ∧
    splitOnboardingEntries " a, b \nc;  ;\n" = ["a", "b", "c"] := by
  refine ⟨?_, by decide, by decide⟩
  intro raw s hs
  unfold splitOnboardingEntries at hs
  simp only [List.mem_filter, List.mem_map, bne_iff_ne, ne_eq] at hs
  obtain ⟨⟨seg, hseg, heq⟩, hne⟩ := hs
  exact ⟨hne, seg, hseg, heq.symm⟩

/-- C9 witness: the general segment property instantiated at the spec's
concrete example and its first output token. -/
theorem C9_splitOnboardingEntries_witness :
    ("a" : String) ≠ "" ∧
      ∃ seg ∈ (" a, b \nc;  ;\n" : String).data.splitOnP
          (fun c => c = '\n' ∨ c = ',' ∨ c = ';'),
        ("a" : String) = jsTrim ⟨seg⟩ :=
  C9_splitOnboardingEntries_spec.1 " a, b \nc;  ;\n" "a" (by decide)

/-- C4: `mergeAllowFromEntries` returns the union of the existing entries and
the additions as trimmed, non-empty text values (a value appears in the output
iff it is the trim of the string form of some input entry and is non-empty),
with duplicates removed (`Nodup`), preserving first-occurrence order with
existing entries before additions (the output is a subsequence of the cleaned
concatenation `existing ++ additions`); and it is idempotent: merging a list
with itself yields exactly the merge of the list with nothing. -/
theorem C4_mergeAllowFromEntries_spec :
    (∀ (current : Option (List RawEntry)) (additions : List RawEntry) (s : String),
       s ∈ mergeAllowFromEntries current additions ↔
         s ≠ "" ∧ ∃ e ∈ current.getD [] ++ additions, s = jsTrim e.toStr) ∧
    (∀ current additions, (mergeAllowFromEntries current additions).Nodup) ∧
    (∀ current additions, (mergeAllowFromEntries current additions).Sublist
       (((current.getD [] ++ additions).map (fun v => jsTrim v.toStr)).filter
         (fun s => s != ""))) ∧
    (∀ l : List RawEntry, mergeAllowFromEntries (some l) l = mergeAllowFromEntries (some l) []) := by
  refine ⟨?_, ?_, ?_, ?_⟩
  · intro current additions s
    unfold mergeAllowFromEntries
    rw [mem_jsSetDedup]
    simp only [List.mem_filter, List.mem_map, bne_iff_ne, ne_eq]
    constructor
    · rintro ⟨⟨e, he, hes⟩, hne⟩
      exact ⟨hne, e, he, hes.symm⟩
    · rintro ⟨hne, e, he, hes⟩
      exact ⟨⟨e, he, hes.symm⟩, hne⟩
  · intro current additions
    exact jsSetDedup_nodup _
  · intro current additions
    exact jsSetDedup_sublist _
  · intro l
    unfold mergeAllowFromEntries
    simp only [Option.getD_some, List.append_nil, List.map_append, List.filter_append]
    exact jsSetDedup_append_of_subset _ _ (fun x hx => hx)

/-- C4 witness: the membership characterization and idempotence instantiated
concretely: merging `["111"]` with itself adds no value. -/
theorem C4_mergeAllowFromEntries_witness :
    mergeAllowFromEntries (some [RawEntry.str "111"]) [RawEntry.str "111"] =
      mergeAllowFromEntries (some [RawEntry.str "111"]) [] ∧
    (("111" : String) ∈ mergeAllowFromEntries (some [RawEntry.str "111"]) [RawEntry.str "111"] ↔
       ("111" : String) ≠ "" ∧
         ∃ e ∈ [RawEntry.str "111"] ++ [RawEntry.str "111"], ("111" : String) = jsTrim e.toStr) :=
  ⟨C4_mergeAllowFromEntries_spec.2.2.2 [RawEntry.str "111"],
   C4_mergeAllowFromEntries_spec.1 (some [RawEntry.str "111"]) [RawEntry.str "111"] "111"⟩

/-- C8: `normalizeAllowFromEntries` always passes the wildcard `"*"` through
unchanged: whenever some entry trims to the wildcard it appears in the output,
for every supplied normalizer (the normalizer is never applied to it and it is
never dropped). Every other output value comes from a non-wildcard entry whose
normalization yielded a string, trimmed and non-empty — entries for which the
normalizer yields an absent or empty result are silently dropped. The output is
deduplicated. -/
theorem C8_normalizeAllowFromEntries_spec :
    ∀ (entries : List RawEntry) (f : String → Option String),
    ((∃ e ∈ entries, jsTrim e.toStr = "*") →
       "*" ∈ normalizeAllowFromEntries entries (some f)) ∧
    (∀ s ∈ normalizeAllowFromEntries entries (some f),
       s = "*" ∨ ∃ e ∈ entries, jsTrim e.toStr ≠ "" ∧ jsTrim e.toStr ≠ "*" ∧
         ∃ v, f (jsTrim e.toStr) = some v ∧ s = jsTrim v ∧ s ≠ "") ∧
    (normalizeAllowFromEntries entries (some f)).Nodup := by
  intro entries f
  refine ⟨?_, ?_, jsSetDedup_nodup _⟩
  · rintro ⟨e, he, hstar⟩
    unfold normalizeAllowFromEntries
    rw [mem_jsSetDedup]
    refine List.mem_filter.2 ⟨?_, by decide⟩
    refine List.mem_map.2 ⟨"*", ?_, by rw [if_pos rfl]⟩
    refine List.mem_filter.2 ⟨?_, by decide⟩
    exact List.mem_map.2 ⟨e, he, hstar⟩
  · intro s hs
    unfold normalizeAllowFromEntries at hs
    rw [mem_jsSetDedup] at hs
    simp only [List.mem_filter, List.mem_map, bne_iff_ne, ne_eq] at hs
    obtain ⟨⟨a, ⟨⟨e, he, hae⟩, hane⟩, has⟩, hsne⟩ := hs
    by_cases hstar : a = "*"
    · left
      rw [← has, hstar, if_pos rfl]
    · right
      rw [if_neg hstar] at has
      rcases hv : f a with _ | v
      · rw [hv] at has
        exact absurd has.symm hsne
      · rw [hv] at has
        exact ⟨e, he, hae ▸ hane, hae ▸ hstar, v, hae ▸ hv, has.symm, hsne⟩

/-- C8 witness: the wildcard survives a normalizer that rejects every entry,
instantiated at the repo test's input list. -/
theorem C8_normalizeAllowFromEntries_witness :
    "*" ∈ normalizeAllowFromEntries
      [RawEntry.str " +15555550123 ", RawEntry.str "*", RawEntry.str "+15555550123",
        RawEntry.str "bad"]
      (some (fun _ => none)) :=
  (C8_normalizeAllowFromEntries_spec
      [RawEntry.str " +15555550123 ", RawEntry.str "*", RawEntry.str "+15555550123",
        RawEntry.str "bad"]
      (fun _ => none)).1 ⟨RawEntry.str "*", by decide, by decide⟩

/-- C7: account resolution. Non-interactive (`resolveOnboardingAccountId`):
a present non-blank identifier is returned trimmed then normalized, otherwise
the default is returned unchanged. Interactive (`resolveAccountIdForConfigure`):
a present non-blank override is trimmed, normalized and used directly, and the
prompting capability is never invoked even when prompting is permitted; with no
override and prompting not permitted, the default is returned as-is. -/
theorem C7_accountResolution_spec :
    ∀ (norm : String → String) (promptResult d s : String),
    (jsTrim s ≠ "" → resolveOnboardingAccountId norm (some s) d = norm (jsTrim s)) ∧
    (jsTrim s = "" → resolveOnboardingAccountId norm (some s) d = d) ∧
    resolveOnboardingAccountId norm none d = d ∧
    (∀ b : Bool, jsTrim s ≠ "" →
       resolveAccountIdForConfigure norm promptResult (some s) b d =
         ⟨normalizeAccountId norm (jsTrim s), false⟩) ∧
    resolveAccountIdForConfigure norm promptResult none false d = ⟨d, false⟩ := by
  intro norm promptResult d s
  refine ⟨?_, ?_, rfl, ?_, rfl⟩
  · intro h
    simp [resolveOnboardingAccountId, normalizeAccountId, h]
  · intro h
    simp [resolveOnboardingAccountId, h]
  · intro b h
    simp [resolveAccountIdForConfigure, normalizeAccountId, h]

/-- C7 witness: a non-blank override wins with prompting permitted, and the
absent-override, prompting-not-permitted case falls back to the default. -/
theorem C7_accountResolution_witness :
    resolveAccountIdForConfigure (fun x => x) "prompted-id" (some " Team Primary ") true
        "fallback" =
      ⟨normalizeAccountId (fun x => x) (jsTrim " Team Primary "), false⟩ ∧
    resolveAccountIdForConfigure (fun x => x) "prompted-id" none false "fallback" =
      ⟨"fallback", false⟩ :=
  ⟨(C7_accountResolution_spec (fun x => x) "prompted-id" "fallback" " Team Primary ").2.2.2.1
      true (by decide),
   (C7_accountResolution_spec (fun x => x) "prompted-id" "fallback" " Team Primary ").2.2.2.2⟩

/-! ### Lemmas about the config patchers -/

theorem setChannelDmPolicy_channels_self (cfg : OpenClawConfig) (channel policy : String) :
    (setChannelDmPolicyWithAllowFrom cfg channel policy).channels channel =
      some { (cfg.channels channel).getD emptyChannelConfig with
        dmPolicy := some policy
        allowFrom :=
          if policy = "open" then
            some (addWildcardAllowFrom (Option.map (List.map RawEntry.str)
              (((cfg.channels channel).getD emptyChannelConfig).allowFrom)))
          else ((cfg.channels channel).getD emptyChannelConfig).allowFrom } := by
  unfold setChannelDmPolicyWithAllowFrom
  by_cases h : policy = "open" <;> simp [h]

theorem setAccountAllowFrom_default_channels (cfg : OpenClawConfig) (channel : String)
    (allowFrom : List String) :
    (setAccountAllowFromForChannel cfg channel DEFAULT_ACCOUNT_ID allowFrom).channels channel =
      some { (cfg.channels channel).getD emptyChannelConfig with allowFrom := some allowFrom } := by
  unfold setAccountAllowFromForChannel
  simp

theorem setAccountAllowFrom_other_channels (cfg : OpenClawConfig) (channel accountId : String)
    (allowFrom : List String) (h : accountId ≠ DEFAULT_ACCOUNT_ID) :
    (setAccountAllowFromForChannel cfg channel accountId allowFrom).channels channel =
      some { (cfg.channels channel).getD emptyChannelConfig with
        accounts := fun a =>
          if a = accountId then
            some { ((((cfg.channels channel).getD emptyChannelConfig).accounts accountId).getD
                emptyAccountConfig) with
              allowFrom := some allowFrom }
          else (((cfg.channels channel).getD emptyChannelConfig).accounts a) } := by
  unfold setAccountAllowFromForChannel
  simp [h]

/-- C5 counterexample: the claim describes the `"open"`-policy update as a
duplicate-free union, but `addWildcardAllowFrom` never deduplicates: on a
channel whose allowFrom is `[" a", "a"]` (two distinct raw values), setting
policy `"open"` produces `["a", "a", "*"]`, which contains a duplicate. -/
theorem C5_setChannelDmPolicy_counterexample :
    (Option.map ChannelConfig.allowFrom
        ((setChannelDmPolicyWithAllowFrom
            ⟨fun c => if c = "signal" then
                some ⟨some [" a", "a"], some "pairing", fun _ => none, []⟩
              else none, []⟩
            "signal" "open").channels "signal")) =
      some (some ["a", "a", "*"]) ∧
    ¬ (["a", "a", "*"] : List String).Nodup := by
  constructor
  · decide
  · decide

/-- C5 (amended): `setChannelDmPolicyWithAllowFrom` sets the channel's dmPolicy
to the given value, and if and only if the new policy is `"open"` it replaces
the channel's top-level allowFrom with `addWildcardAllowFrom` of the old list —
the trimmed, non-empty entries in order, with the wildcard appended only when
not already present (the operation does not deduplicate other entries); for
every other policy value the channel's allowFrom is left untouched, including
when switching away from `"open"`; all other channel fields, sibling channels
and the snapshot's other fields are preserved. -/
theorem C5_setChannelDmPolicy_amended :
    ∀ (cfg : OpenClawConfig) (channel policy : String),
    (∃ cc, (setChannelDmPolicyWithAllowFrom cfg channel policy).channels channel = some cc ∧
       cc.dmPolicy = some policy ∧
       (policy = "open" →
          cc.allowFrom = some (addWildcardAllowFrom (Option.map (List.map RawEntry.str)
            (((cfg.channels channel).getD emptyChannelConfig).allowFrom)))) ∧
       (policy ≠ "open" →
          cc.allowFrom = ((cfg.channels channel).getD emptyChannelConfig).allowFrom) ∧
       cc.accounts = ((cfg.channels channel).getD emptyChannelConfig).accounts ∧
       cc.extra = ((cfg.channels channel).getD emptyChannelConfig).extra) ∧
    (∀ c, c ≠ channel →
       (setChannelDmPolicyWithAllowFrom cfg channel policy).channels c = cfg.channels c) ∧
    (setChannelDmPolicyWithAllowFrom cfg channel policy).extra = cfg.extra ∧
    (∀ entries : Option (List RawEntry),
       "*" ∈ addWildcardAllowFrom entries ∧
       ("*" ∈ ((entries.getD []).map (fun v => jsTrim v.toStr)).filter (fun s => s != "") →
          addWildcardAllowFrom entries =
            ((entries.getD []).map (fun v => jsTrim v.toStr)).filter (fun s => s != "")) ∧
       (∀ s ∈ addWildcardAllowFrom entries,
          s = "*" ∨ (s ≠ "" ∧ ∃ e ∈ entries.getD [], s = jsTrim e.toStr))) := by
  intro cfg channel policy
  refine ⟨⟨_, setChannelDmPolicy_channels_self cfg channel policy, rfl, ?_, ?_, rfl, rfl⟩,
    ?_, rfl, ?_⟩
  · intro h
    simp [h]
  · intro h
    simp [h]
  · intro c hc
    unfold setChannelDmPolicyWithAllowFrom
    simp [hc]
  · intro entries
    unfold addWildcardAllowFrom
    refine ⟨?_, ?_, ?_⟩
    · by_cases h : "*" ∈ ((entries.getD []).map (fun v => jsTrim v.toStr)).filter
        (fun s => s != "")
      · simp only [if_pos h]
        exact h
      · simp [h]
    · intro h
      simp [h]
    · intro s hs
      by_cases h : "*" ∈ ((entries.getD []).map (fun v => jsTrim v.toStr)).filter
        (fun s => s != "")
      · rw [if_pos h] at hs
        simp only [List.mem_filter, List.mem_map, bne_iff_ne, ne_eq] at hs
        obtain ⟨⟨e, he, hes⟩, hne⟩ := hs
        exact Or.inr ⟨hne, e, he, hes.symm⟩
      · rw [if_neg h] at hs
        rcases List.mem_append.1 hs with hs | hs
        · simp only [List.mem_filter, List.mem_map, bne_iff_ne, ne_eq] at hs
          obtain ⟨⟨e, he, hes⟩, hne⟩ := hs
          exact Or.inr ⟨hne, e, he, hes.symm⟩
        · left
          simpa using hs

/-- C5 witness: the amended claim at the spec's concrete example — policy
`"open"` on a `signal` channel with allowFrom `["+1555"]` — and at the
non-`"open"` policy `"pairing"`. -/
theorem C5_setChannelDmPolicy_witness :
    (∃ cc, (setChannelDmPolicyWithAllowFrom
        ⟨fun c => if c = "signal" then some ⟨some ["+1555"], some "pairing", fun _ => none, []⟩
          else none, []⟩
        "signal" "open").channels "signal" = some cc ∧
      cc.dmPolicy = some "open" ∧ cc.allowFrom = some ["+1555", "*"]) ∧
    (∃ cc, (setChannelDmPolicyWithAllowFrom
        ⟨fun c => if c = "signal" then some ⟨some ["+1555"], some "open", fun _ => none, []⟩
          else none, []⟩
        "signal" "pairing").channels "signal" = some cc ∧
      cc.dmPolicy = some "pairing" ∧ cc.allowFrom = some ["+1555"]) := by
  constructor
  · obtain ⟨cc, hcc, hdm, hopen, -, -, -⟩ :=
      (C5_setChannelDmPolicy_amended
        ⟨fun c => if c = "signal" then some ⟨some ["+1555"], some "pairing", fun _ => none, []⟩
          else none, []⟩
        "signal" "open").1
    refine ⟨cc, hcc, hdm, ?_⟩
    rw [hopen rfl]
    decide
  · obtain ⟨cc, hcc, hdm, -, hother, -, -⟩ :=
      (C5_setChannelDmPolicy_amended
        ⟨fun c => if c = "signal" then some ⟨some ["+1555"], some "open", fun _ => none, []⟩
          else none, []⟩
        "signal" "pairing").1
    refine ⟨cc, hcc, hdm, ?_⟩
    rw [hother (by decide)]
    decide

/-- C6: `setAccountAllowFromForChannel` writes the given allowFrom at the
channel's top level when the account id is the default-account sentinel, and
otherwise only under the channel's accounts map at that account id; in both
cases every other field at every level — sibling channels, sibling accounts, the
channel's other fields and the targeted account's other fields — is preserved,
and the snapshot's own other fields are preserved. (The input snapshot is never
mutated: the embedding is a pure function returning a new value, which is
intrinsic to this model.) -/
theorem C6_setAccountAllowFrom_spec :
    ∀ (cfg : OpenClawConfig) (channel accountId : String) (allowFrom : List String),
    (accountId = DEFAULT_ACCOUNT_ID →
       ∃ cc, (setAccountAllowFromForChannel cfg channel accountId allowFrom).channels channel =
           some cc ∧
         cc.allowFrom = some allowFrom ∧
         cc.dmPolicy = ((cfg.channels channel).getD emptyChannelConfig).dmPolicy ∧
         cc.accounts = ((cfg.channels channel).getD emptyChannelConfig).accounts ∧
         cc.extra = ((cfg.channels channel).getD emptyChannelConfig).extra) ∧
    (accountId ≠ DEFAULT_ACCOUNT_ID →
       ∃ cc, (setAccountAllowFromForChannel cfg channel accountId allowFrom).channels channel =
           some cc ∧
         cc.allowFrom = ((cfg.channels channel).getD emptyChannelConfig).allowFrom ∧
         cc.dmPolicy = ((cfg.channels channel).getD emptyChannelConfig).dmPolicy ∧
         cc.extra = ((cfg.channels channel).getD emptyChannelConfig).extra ∧
         (∃ ac, cc.accounts accountId = some ac ∧
            ac.allowFrom = some allowFrom ∧
            ac.extra = ((((cfg.channels channel).getD emptyChannelConfig).accounts
                accountId).getD emptyAccountConfig).extra) ∧
         (∀ a, a ≠ accountId →
            cc.accounts a = ((cfg.channels channel).getD emptyChannelConfig).accounts a)) ∧
    (∀ c, c ≠ channel →
       (setAccountAllowFromForChannel cfg channel accountId allowFrom).channels c =
         cfg.channels c) ∧
    (setAccountAllowFromForChannel cfg channel accountId allowFrom).extra = cfg.extra := by
  intro cfg channel accountId allowFrom
  refine ⟨?_, ?_, ?_, ?_⟩
  · intro h
    refine ⟨{ (cfg.channels channel).getD emptyChannelConfig with allowFrom := some allowFrom },
      ?_, rfl, rfl, rfl, rfl⟩
    rw [h]
    exact setAccountAllowFrom_default_channels cfg channel allowFrom
  · intro h
    refine ⟨_, setAccountAllowFrom_other_channels cfg channel accountId allowFrom h,
      rfl, rfl, rfl,
      ⟨{ ((((cfg.channels channel).getD emptyChannelConfig).accounts accountId).getD
            emptyAccountConfig) with allowFrom := some allowFrom }, ?_, rfl, rfl⟩, ?_⟩
    · simp
    · intro a ha
      simp [ha]
  · intro c hc
    unfold setAccountAllowFromForChannel
    by_cases h : accountId = DEFAULT_ACCOUNT_ID <;> simp [h, hc]
  · unfold setAccountAllowFromForChannel
    by_cases h : accountId = DEFAULT_ACCOUNT_ID <;> simp [h]

/-- C6 witness: the repo test scenario — writing at the default account leaves
the nested `work` account untouched while replacing the top-level allowFrom. -/
theorem C6_setAccountAllowFrom_witness :
    ∃ cc, (setAccountAllowFromForChannel
        ⟨fun c => if c = "imessage" then
            some ⟨some ["old"], none,
              fun a => if a = "work" then some ⟨some ["work-old"], []⟩ else none, []⟩
          else none, []⟩
        "imessage" DEFAULT_ACCOUNT_ID ["new-default"]).channels "imessage" = some cc ∧
      cc.allowFrom = some ["new-default"] ∧
      cc.accounts "work" = some ⟨some ["work-old"], []⟩ := by
  obtain ⟨cc, hcc, hallow, -, haccs, -⟩ :=
    (C6_setAccountAllowFrom_spec
      ⟨fun c => if c = "imessage" then
          some ⟨some ["old"], none,
            fun a => if a = "work" then some ⟨some ["work-old"], []⟩ else none, []⟩
        else none, []⟩
      "imessage" DEFAULT_ACCOUNT_ID ["new-default"]).1 rfl
  refine ⟨cc, hcc, hallow, ?_⟩
  rw [congrFun haccs "work"]
  decide

/-! ### Lemmas about the resolution loop -/

theorem promptResolvedAllowFrom_cons_local (existing : List RawEntry) (token : Option String)
    (parseInputs : String → List String) (parseId : String → Option String) (note : String)
    (round : RoundInput) (rest : List RoundInput) (hlocal : token.getD "" = "") :
    promptResolvedAllowFrom existing token parseInputs parseId note (round :: rest) =
      if ((((parseInputs round.entry).map parseId).reduceOption).filter
            (fun s => s != "")).length ≠ (parseInputs round.entry).length then
        ⟨(promptResolvedAllowFrom existing token parseInputs parseId note rest).result,
         note :: (promptResolvedAllowFrom existing token parseInputs parseId note rest).notices,
         (promptResolvedAllowFrom existing token parseInputs parseId note rest).resolveCalls⟩
      else
        ⟨some (mergeAllowFromEntries (some existing)
            (((((parseInputs round.entry).map parseId).reduceOption).filter
              (fun s => s != "")).map RawEntry.str)), [], 0⟩ := by
  rw [promptResolvedAllowFrom]
  simp [hlocal]

theorem promptResolvedAllowFrom_cons_reject (existing : List RawEntry) (token : Option String)
    (parseInputs : String → List String) (parseId : String → Option String) (note : String)
    (round : RoundInput) (rest : List RoundInput) (htoken : token.getD "" ≠ "")
    (hrej : round.outcome = none) :
    promptResolvedAllowFrom existing token parseInputs parseId note (round :: rest) =
      ⟨(promptResolvedAllowFrom existing token parseInputs parseId note rest).result,
       "Failed to resolve usernames. Try again." ::
         (promptResolvedAllowFrom existing token parseInputs parseId note rest).notices,
       (promptResolvedAllowFrom existing token parseInputs parseId note rest).resolveCalls + 1⟩ := by
  rw [promptResolvedAllowFrom]
  simp [htoken, hrej]

theorem promptResolvedAllowFrom_cons_results (existing : List RawEntry) (token : Option String)
    (parseInputs : String → List String) (parseId : String → Option String) (note : String)
    (round : RoundInput) (rest : List RoundInput) (results : List AllowFromResolution)
    (htoken : token.getD "" ≠ "") (hres : round.outcome = some results) :
    promptResolvedAllowFrom existing token parseInputs parseId note (round :: rest) =
      if 0 < (results.filter resolutionUnacceptable).length then
        ⟨(promptResolvedAllowFrom existing token parseInputs parseId note rest).result,
         ("Could not resolve: " ++ String.intercalate ", "
             ((results.filter resolutionUnacceptable).map (fun res => res.input))) ::
           (promptResolvedAllowFrom existing token parseInputs parseId note rest).notices,
         (promptResolvedAllowFrom existing token parseInputs parseId note rest).resolveCalls + 1⟩
      else
        ⟨some (mergeAllowFromEntries (some existing)
            ((results.map (fun res => res.id.getD "")).map RawEntry.str)), [], 1⟩ := by
  rw [promptResolvedAllowFrom]
  simp [htoken, hres]

theorem ids_length_eq_iff (parseId : String → Option String) (parts : List String) :
    ((((parts.map parseId).reduceOption).filter (fun s => s != "")).length = parts.length) ↔
      ∀ p ∈ parts, ∃ s, parseId p = some s ∧ s ≠ "" := by
  induction parts with
  | nil => simp
  | cons p parts ih =>
    rcases hp : parseId p with _ | s
    · rw [List.map_cons, hp, List.reduceOption_cons_of_none]
      constructor
      · intro hlen
        exfalso
        have hle : (((parts.map parseId).reduceOption).filter (fun s => s != "")).length ≤
            parts.length :=
          le_trans (List.length_filter_le _ _)
            (le_trans (List.reduceOption_length_le _) (by simp))
        simp only [List.length_cons] at hlen
        omega
      · intro hall
        obtain ⟨s, hs, -⟩ := hall p (List.mem_cons_self p parts)
        rw [hp] at hs
        cases hs
    · rw [List.map_cons, hp, List.reduceOption_cons_of_some]
      by_cases hs : s = ""
      · subst hs
        rw [List.filter_cons_of_neg (by decide)]
        constructor
        · intro hlen
          exfalso
          have hle : (((parts.map parseId).reduceOption).filter (fun s => s != "")).length ≤
              parts.length :=
            le_trans (List.length_filter_le _ _)
              (le_trans (List.reduceOption_length_le _) (by simp))
          simp only [List.length_cons] at hlen
          omega
        · intro hall
          obtain ⟨t, ht, htne⟩ := hall p (List.mem_cons_self p parts)
          rw [hp] at ht
          cases ht
          exact absurd rfl htne
      · rw [List.filter_cons_of_pos (by simpa using hs)]
        simp only [List.length_cons, Nat.succ_inj, ih]
        constructor
        · intro hall q hq
          rcases List.mem_cons.1 hq with rfl | hq
          · exact ⟨s, hp, hs⟩
          · exact hall q hq
        · intro hall q hq
          exact hall q (List.mem_cons_of_mem p hq)

theorem local_success_characterization (existing : List RawEntry) (token : Option String)
    (parseInputs : String → List String) (parseId : String → Option String) (note : String)
    (hlocal : token.getD "" = "") :
    ∀ (script : List RoundInput) (v : List String),
      (promptResolvedAllowFrom existing token parseInputs parseId note script).result = some v →
      ∃ round ∈ script,
        ((((parseInputs round.entry).map parseId).reduceOption).filter
            (fun s => s != "")).length = (parseInputs round.entry).length ∧
        v = mergeAllowFromEntries (some existing)
          (((((parseInputs round.entry).map parseId).reduceOption).filter
            (fun s => s != "")).map RawEntry.str) := by
  intro script
  induction script with
  | nil =>
    intro v hv
    simp [promptResolvedAllowFrom] at hv
  | cons round rest ih =>
    intro v hv
    rw [promptResolvedAllowFrom_cons_local existing token parseInputs parseId note round rest
      hlocal] at hv
    by_cases h : ((((parseInputs round.entry).map parseId).reduceOption).filter
        (fun s => s != "")).length ≠ (parseInputs round.entry).length
    · rw [if_pos h] at hv
      obtain ⟨r, hr, hlen, hval⟩ := ih v hv
      exact ⟨r, List.mem_cons_of_mem round hr, hlen, hval⟩
    · rw [if_neg h] at hv
      rw [not_not] at h
      exact ⟨round, List.mem_cons_self round rest, h, by simpa using hv.symm⟩

/-- C1: in directory mode (truthy token), a round whose resolution results
contain any unacceptable one (not resolved, or absent/empty identifier — the
first conjunct ties the code's test to exactly that predicate) shows the notice
`"Could not resolve: "` followed by the original input texts of exactly the
unacceptable results joined by `", "`, and re-prompts, discarding all of the
round's candidates (the continuation is exactly the run of the remaining
rounds); when every result is acceptable the loop returns the merge of the
existing allowlist with the resolved identifiers of that round only. -/
theorem C1_directory_all_or_nothing :
    ∀ (existing : List RawEntry) (token : Option String) (parseInputs : String → List String)
      (parseId : String → Option String) (note : String) (round : RoundInput)
      (rest : List RoundInput) (results : List AllowFromResolution),
    token.getD "" ≠ "" →
    round.outcome = some results →
    ((∀ res : AllowFromResolution, resolutionUnacceptable res = true ↔
        (res.resolved = false ∨ res.id = none ∨ res.id = some "")) ∧
     (results.filter resolutionUnacceptable ≠ [] →
        promptResolvedAllowFrom existing token parseInputs parseId note (round :: rest) =
          ⟨(promptResolvedAllowFrom existing token parseInputs parseId note rest).result,
           ("Could not resolve: " ++ String.intercalate ", "
               ((results.filter resolutionUnacceptable).map (fun res => res.input))) ::
             (promptResolvedAllowFrom existing token parseInputs parseId note rest).notices,
           (promptResolvedAllowFrom existing token parseInputs parseId note rest).resolveCalls
             + 1⟩) ∧
     (results.filter resolutionUnacceptable = [] →
        promptResolvedAllowFrom existing token parseInputs parseId note (round :: rest) =
          ⟨some (mergeAllowFromEntries (some existing)
              ((results.map (fun res => res.id.getD "")).map RawEntry.str)), [], 1⟩)) := by
  intro existing token parseInputs parseId note round rest results htoken hres
  refine ⟨?_, ?_, ?_⟩
  · rintro ⟨input, resolved, id⟩
    rcases resolved <;> rcases id with _ | s <;>
      simp [resolutionUnacceptable, beq_iff_eq]
  · intro h
    rw [promptResolvedAllowFrom_cons_results existing token parseInputs parseId note round rest
      results htoken hres]
    rw [if_pos (List.length_pos.2 h)]
  · intro h
    rw [promptResolvedAllowFrom_cons_results existing token parseInputs parseId note round rest
      results htoken hres]
    rw [if_neg (by simp [h])]

/-- C1 witness: the spec's two-round scenario — round 1 returns one unresolved
and one resolved result and is discarded whole; round 2 resolves fully and only
its identifier is merged. -/
theorem C1_directory_all_or_nothing_witness :
    promptResolvedAllowFrom [] (some "xoxb-test") splitOnboardingEntries (fun _ => none)
        "ids only"
        [⟨"alice, bob", some [⟨"alice", false, none⟩, ⟨"bob", true, some "U1"⟩]⟩,
         ⟨"bob", some [⟨"bob", true, some "U123"⟩]⟩] =
      ⟨some ["U123"], ["Could not resolve: alice"], 2⟩ := by
  rw [((C1_directory_all_or_nothing [] (some "xoxb-test") splitOnboardingEntries (fun _ => none)
      "ids only" ⟨"alice, bob", some [⟨"alice", false, none⟩, ⟨"bob", true, some "U1"⟩]⟩
      [⟨"bob", some [⟨"bob", true, some "U123"⟩]⟩]
      [⟨"alice", false, none⟩, ⟨"bob", true, some "U1"⟩]
      (by decide) rfl).2.1 (by decide))]
  decide

/-- C2: in directory mode, a rejected `resolveEntries` call is caught (the
underlying error is discarded — in this embedding a rejection carries no data
and the run continues normally), the generic notice
`"Failed to resolve usernames. Try again."` is shown, and the loop re-prompts;
when the resolver rejects on attempt 1 and fulfils with all-acceptable results
on attempt 2, the loop returns the merge of the existing allowlist with
attempt 2's resolved identifiers, having invoked the resolver exactly twice. -/
theorem C2_rejection_recovery :
    ∀ (existing : List RawEntry) (token : Option String) (parseInputs : String → List String)
      (parseId : String → Option String) (note : String) (round : RoundInput)
      (rest : List RoundInput),
    token.getD "" ≠ "" →
    round.outcome = none →
    (promptResolvedAllowFrom existing token parseInputs parseId note (round :: rest) =
       ⟨(promptResolvedAllowFrom existing token parseInputs parseId note rest).result,
        "Failed to resolve usernames. Try again." ::
          (promptResolvedAllowFrom existing token parseInputs parseId note rest).notices,
        (promptResolvedAllowFrom existing token parseInputs parseId note rest).resolveCalls
          + 1⟩) ∧
    (∀ (round2 : RoundInput) (results2 : List AllowFromResolution),
       round2.outcome = some results2 →
       results2.filter resolutionUnacceptable = [] →
       promptResolvedAllowFrom existing token parseInputs parseId note [round, round2] =
         ⟨some (mergeAllowFromEntries (some existing)
             ((results2.map (fun res => res.id.getD "")).map RawEntry.str)),
          ["Failed to resolve usernames. Try again."], 2⟩) := by
  intro existing token parseInputs parseId note round rest htoken hrej
  constructor
  · exact promptResolvedAllowFrom_cons_reject existing token parseInputs parseId note round rest
      htoken hrej
  · intro round2 results2 hr2 hok
    have h2 := promptResolvedAllowFrom_cons_results existing token parseInputs parseId note
      round2 [] results2 htoken hr2
    rw [if_neg (by simp [hok])] at h2
    rw [promptResolvedAllowFrom_cons_reject existing token parseInputs parseId note round
      [round2] htoken hrej, h2]

/-- C2 witness: the repo test scenario — rejection on attempt 1, full success on
attempt 2 — returns attempt 2's merge after exactly two resolver calls. -/
theorem C2_rejection_recovery_witness :
    promptResolvedAllowFrom [] (some "xoxb-test") splitOnboardingEntries (fun _ => none)
        "ids only" [⟨"alice", none⟩, ⟨"bob", some [⟨"bob", true, some "U234"⟩]⟩] =
      ⟨some ["U234"], ["Failed to resolve usernames. Try again."], 2⟩ := by
  rw [(C2_rejection_recovery [] (some "xoxb-test") splitOnboardingEntries (fun _ => none)
      "ids only" ⟨"alice", none⟩ [⟨"bob", some [⟨"bob", true, some "U234"⟩]⟩]
      (by decide) rfl).2 ⟨"bob", some [⟨"bob", true, some "U234"⟩]⟩
      [⟨"bob", true, some "U234"⟩] rfl (by decide)]
  decide

/-- C3: in local mode (falsy token), a round succeeds exactly when the local
parser yields a valid (non-null, non-empty) identifier for every candidate (the
first conjunct ties the code's length test to that condition), returning the
merge of the existing allowlist with the parsed identifiers; if any candidate
fails to parse, the configured invalid-without-token notice is shown and the
loop re-prompts, adding none of the round's candidates; and every successful
local-mode run's value is the merge from some fully-valid round (the loop's
only success exit). -/
theorem C3_local_all_or_nothing :
    ∀ (existing : List RawEntry) (token : Option String) (parseInputs : String → List String)
      (parseId : String → Option String) (note : String) (round : RoundInput)
      (rest : List RoundInput),
    token.getD "" = "" →
    (((((((parseInputs round.entry).map parseId).reduceOption).filter
          (fun s => s != "")).length = (parseInputs round.entry).length)) ↔
       ∀ p ∈ parseInputs round.entry, ∃ s, parseId p = some s ∧ s ≠ "") ∧
    (((((parseInputs round.entry).map parseId).reduceOption).filter
          (fun s => s != "")).length = (parseInputs round.entry).length →
       promptResolvedAllowFrom existing token parseInputs parseId note (round :: rest) =
         ⟨some (mergeAllowFromEntries (some existing)
             (((((parseInputs round.entry).map parseId).reduceOption).filter
               (fun s => s != "")).map RawEntry.str)), [], 0⟩) ∧
    (((((parseInputs round.entry).map parseId).reduceOption).filter
          (fun s => s != "")).length ≠ (parseInputs round.entry).length →
       promptResolvedAllowFrom existing token parseInputs parseId note (round :: rest) =
         ⟨(promptResolvedAllowFrom existing token parseInputs parseId note rest).result,
          note :: (promptResolvedAllowFrom existing token parseInputs parseId note rest).notices,
          (promptResolvedAllowFrom existing token parseInputs parseId note rest).resolveCalls⟩) ∧
    (∀ (script : List RoundInput) (v : List String),
       (promptResolvedAllowFrom existing token parseInputs parseId note script).result =
         some v →
       ∃ r ∈ script,
         ((((parseInputs r.entry).map parseId).reduceOption).filter
             (fun s => s != "")).length = (parseInputs r.entry).length ∧
         v = mergeAllowFromEntries (some existing)
           (((((parseInputs r.entry).map parseId).reduceOption).filter
             (fun s => s != "")).map RawEntry.str)) := by
  intro existing token parseInputs parseId note round rest hlocal
  refine ⟨ids_length_eq_iff parseId (parseInputs round.entry), ?_, ?_, ?_⟩
  · intro h
    rw [promptResolvedAllowFrom_cons_local existing token parseInputs parseId note round rest
      hlocal]
    rw [if_neg (not_not_intro h)]
  · intro h
    rw [promptResolvedAllowFrom_cons_local existing token parseInputs parseId note round rest
      hlocal]
    rw [if_pos h]
  · exact local_success_characterization existing token parseInputs parseId note hlocal

/-- C3 witness: the spec example — input `"@alice,123"` with a digit-only
parser and existing `["111"]` re-prompts once, then `"123"` succeeds yielding
`["111","123"]`. -/
theorem C3_local_all_or_nothing_witness :
    promptResolvedAllowFrom [RawEntry.str "111"] (some "") splitOnboardingEntries
        (fun v => if v.data.all Char.isDigit && v != "" then some v else none)
        "ids only" [⟨"@alice,123", none⟩, ⟨"123", none⟩] =
      ⟨some ["111", "123"], ["ids only"], 0⟩ := by
  rw [(C3_local_all_or_nothing [RawEntry.str "111"] (some "") splitOnboardingEntries
      (fun v => if v.data.all Char.isDigit && v != "" then some v else none)
      "ids only" ⟨"@alice,123", none⟩ [⟨"123", none⟩] rfl).2.2.1 (by decide)]
  decide

/-- C10: the loop never checks that a round produced at least one candidate,
nor that the resolver returned one result per candidate: a local-mode round
whose parse yields zero candidates succeeds immediately, a directory-mode round
whose resolver fulfils with an empty result list (or any all-acceptable list,
however short) succeeds immediately, and in each case the returned list is the
merge of the existing allowlist with only the identifiers actually returned —
whose values, when no identifier was returned, are exactly the trimmed
non-empty values already in the existing allowlist. -/
theorem C10_no_count_check :
    ∀ (existing : List RawEntry) (token : Option String) (parseInputs : String → List String)
      (parseId : String → Option String) (note : String) (round : RoundInput)
      (rest : List RoundInput),
    (token.getD "" = "" → parseInputs round.entry = [] →
       promptResolvedAllowFrom existing token parseInputs parseId note (round :: rest) =
         ⟨some (mergeAllowFromEntries (some existing) []), [], 0⟩) ∧
    (token.getD "" ≠ "" → round.outcome = some [] →
       promptResolvedAllowFrom existing token parseInputs parseId note (round :: rest) =
         ⟨some (mergeAllowFromEntries (some existing) []), [], 1⟩) ∧
    (∀ results : List AllowFromResolution, token.getD "" ≠ "" →
       round.outcome = some results →
       results.filter resolutionUnacceptable = [] →
       promptResolvedAllowFrom existing token parseInputs parseId note (round :: rest) =
         ⟨some (mergeAllowFromEntries (some existing)
             ((results.map (fun res => res.id.getD "")).map RawEntry.str)), [], 1⟩) ∧
    (∀ s, s ∈ mergeAllowFromEntries (some existing) [] ↔
       (s ≠ "" ∧ ∃ e ∈ existing, s = jsTrim e.toStr)) := by
  intro existing token parseInputs parseId note round rest
  refine ⟨?_, ?_, ?_, ?_⟩
  · intro hlocal hparts
    rw [promptResolvedAllowFrom_cons_local existing token parseInputs parseId note round rest
      hlocal]
    rw [hparts]
    rw [if_neg (by simp)]
    rfl
  · intro htoken hres
    have h := promptResolvedAllowFrom_cons_results existing token parseInputs parseId note
      round rest [] htoken hres
    rw [if_neg (by simp)] at h
    exact h
  · intro results htoken hres hok
    have h := promptResolvedAllowFrom_cons_results existing token parseInputs parseId note
      round rest results htoken hres
    rw [if_neg (by simp [hok])] at h
    exact h
  · intro s
    unfold mergeAllowFromEntries
    rw [mem_jsSetDedup]
    simp only [Option.getD_some, List.append_nil, List.mem_filter, List.mem_map, bne_iff_ne,
      ne_eq]
    constructor
    · rintro ⟨⟨e, he, hes⟩, hne⟩
      exact ⟨hne, e, he, hes.symm⟩
    · rintro ⟨hne, e, he, hes⟩
      exact ⟨⟨e, he, hes.symm⟩, hne⟩

/-- C10 witness: a local-mode round whose input is only separators (zero
candidates) and a directory-mode round whose resolver returns the empty list
both succeed at once, leaving the allowlist's values unchanged. -/
theorem C10_no_count_check_witness :
    promptResolvedAllowFrom [RawEntry.str "111"] none splitOnboardingEntries (fun _ => none)
        "ids only" [⟨";;, ,\n", none⟩] =
      ⟨some (mergeAllowFromEntries (some [RawEntry.str "111"]) []), [], 0⟩ ∧
    promptResolvedAllowFrom [RawEntry.str "111"] (some "xoxb-test") splitOnboardingEntries
        (fun _ => none) "ids only" [⟨"alice", some []⟩] =
      ⟨some (mergeAllowFromEntries (some [RawEntry.str "111"]) []), [], 1⟩ :=
  ⟨(C10_no_count_check [RawEntry.str "111"] none splitOnboardingEntries (fun _ => none)
      "ids only" ⟨";;, ,\n", none⟩ []).1 rfl (by decide),
   (C10_no_count_check [RawEntry.str "111"] (some "xoxb-test") splitOnboardingEntries
      (fun _ => none) "ids only" ⟨"alice", some []⟩ []).2.1 (by decide) rfl⟩

end Clawdbot
